import Mathlib

set_option maxRecDepth 8000

/-!
# Verification of the GPU telemetry sampler (tools/intel_gpu_top.c)

A shallow embedding of the counter data model, the rate calculator, the
grouped-read layout, the sampler, the class aggregator, the stdout/JSON/
Prometheus renderers and engine discovery, with theorems checking the
specification's claims against them.

Machine integers are modelled as `Nat` with explicit reduction modulo `2^64`
where uint64 overflow matters; C doubles are modelled as exact rationals;
C byte strings are modelled as lists of byte values.
-/

namespace IntelGpuTop

/-- One more than the largest uint64 value. -/
def U64 : ℕ := 2 ^ 64

/-- struct pmu_pair: current and previous raw counter value (uint64). -/
structure PmuPair where
  cur : ℕ
  prev : ℕ
deriving DecidableEq, Repr, Inhabited

/-- The per-tick delta of a pair, with uint64 wraparound, as the C expression
`p->cur - p->prev` computes it. -/
def u64_delta (p : PmuPair) : ℕ := (p.cur + U64 - p.prev) % U64

/-- pmu_calc: `v = (cur - prev); v /= d; v /= t; v *= s;` followed by the
saturation rule `if (s == 100.0 && v > 100.0) v = 100.0`.  The uint64
subtraction wraps; the double arithmetic is modelled exactly over ℚ. -/
def pmu_calc (p : PmuPair) (d t s : ℚ) : ℚ :=
  let v : ℚ := ((u64_delta p : ℕ) : ℚ) / d / t * s
  if s = 100 ∧ 100 < v then 100 else v

/-- struct pmu_counter, restricted to the fields the sampler touches. -/
structure PmuCounter where
  config : ℕ
  idx : ℕ
  val : PmuPair
  present : Bool
deriving DecidableEq, Repr, Inhabited

/-- __update_sample: shift `cur` into `prev` and store the fresh value. -/
def __update_sample (counter : PmuCounter) (v : ℕ) : PmuCounter :=
  { counter with val := { cur := v, prev := counter.val.cur } }

/-- update_sample: only counters with `present` set are touched; the fresh
value is taken from the slot the counter's `idx` selects. -/
def update_sample (counter : PmuCounter) (val : ℕ → ℕ) : PmuCounter :=
  if counter.present then __update_sample counter (val counter.idx) else counter

/-- The per-counter effect of pmu_sample over a group's counter list. -/
def pmu_sample_counters (counters : List PmuCounter) (val : ℕ → ℕ) :
    List PmuCounter :=
  counters.map (fun c => update_sample c val)

/-- pmu_read_multi: a grouped read of `num` counters delivers the kernel
buffer `buf`; the code asserts the byte length is exactly `(2 + num)`
64-bit words (abort otherwise, modelled as `none`), returns word 1 as the
group timestamp and copies word `2 + i` into value slot `i`. -/
def pmu_read_multi (num : ℕ) (buf : List ℕ) : Option (ℕ × List ℕ) :=
  if buf.length = 2 + num then
    some (buf.getD 1 0, (List.range num).map (fun i => buf.getD (2 + i) 0))
  else
    none

lemma u64_delta_of_le {cur prev : ℕ} (hmono : prev ≤ cur) (hc : cur < U64) :
    u64_delta ⟨cur, prev⟩ = cur - prev := by
  unfold u64_delta
  have h1 : cur + U64 - prev = (cur - prev) + U64 := by omega
  simp only [h1, Nat.add_mod_right]
  exact Nat.mod_eq_of_lt (by omega)

/-- C1: pmu_calc returns ((cur − prev) / d) / t * s, except that when the
display scale is 100 and that quantity exceeds 100 the result is clamped to
exactly 100; consequently, for a percentage metric (d = 1e9, s = 100) with
monotone raw values and a positive wall-time delta, the rendered value lies
in [0, 100]. -/
theorem pmu_calc_formula_and_range (cur prev : ℕ) (d t s : ℚ)
    (hc : cur < U64) (hmono : prev ≤ cur) :
    pmu_calc ⟨cur, prev⟩ d t s =
      (if s = 100 ∧ 100 < ((cur - prev : ℕ) : ℚ) / d / t * s then (100 : ℚ)
       else ((cur - prev : ℕ) : ℚ) / d / t * s) ∧
    (0 < t →
      0 ≤ pmu_calc ⟨cur, prev⟩ (10 ^ 9) t 100 ∧
        pmu_calc ⟨cur, prev⟩ (10 ^ 9) t 100 ≤ 100) := by
  have hδ : u64_delta ⟨cur, prev⟩ = cur - prev := u64_delta_of_le hmono hc
  constructor
  · simp only [pmu_calc, hδ]
  · intro ht
    have hraw : (0 : ℚ) ≤ ((cur - prev : ℕ) : ℚ) / (10 ^ 9) / t * 100 := by
      positivity
    simp only [pmu_calc, hδ]
    split_ifs with hclamp
    · exact ⟨by norm_num, le_refl 100⟩
    · have hle : ((cur - prev : ℕ) : ℚ) / (10 ^ 9) / t * 100 ≤ 100 := by
        by_contra hgt
        exact hclamp ⟨by norm_num, by linarith⟩
      exact ⟨hraw, hle⟩

theorem pmu_calc_formula_and_range_witness :
    0 ≤ pmu_calc ⟨5, 3⟩ (10 ^ 9) 1 100 ∧ pmu_calc ⟨5, 3⟩ (10 ^ 9) 1 100 ≤ 100 :=
  (pmu_calc_formula_and_range 5 3 (10 ^ 9) 1 100 (by norm_num [U64])
    (by norm_num)).2 (by norm_num)

/-- C5: a grouped read of a group with `num` present counters accepts only a
buffer of exactly `2 + num` 64-bit words (any other length is a fatal
failure, never silently accepted); on success word 1 is the sampling
timestamp and the value of the counter with group index `i` is word
`2 + i`. -/
theorem pmu_read_multi_layout (num : ℕ) (buf : List ℕ) :
    (buf.length ≠ 2 + num → pmu_read_multi num buf = none) ∧
    (buf.length = 2 + num →
      ∃ vals, pmu_read_multi num buf = some (buf.getD 1 0, vals) ∧
        vals.length = num ∧ ∀ i < num, vals.getD i 0 = buf.getD (2 + i) 0) := by
  constructor
  · intro hne
    unfold pmu_read_multi
    exact if_neg hne
  · intro heq
    refine ⟨(List.range num).map (fun i => buf.getD (2 + i) 0), ?_, ?_, ?_⟩
    · unfold pmu_read_multi
      exact if_pos heq
    · simp
    · intro i hi
      rw [List.getD_eq_getElem?_getD, List.getElem?_map, List.getElem?_range hi]
      rfl

theorem pmu_read_multi_layout_witness :
    (pmu_read_multi 1 [7] = none) ∧
    (∃ vals, pmu_read_multi 1 [7, 9, 4] = some ([7, 9, 4].getD 1 0, vals) ∧
      vals.length = 1 ∧ ∀ i < 1, vals.getD i 0 = [7, 9, 4].getD (2 + i) 0) :=
  ⟨(pmu_read_multi_layout 1 [7]).1 (by decide),
   (pmu_read_multi_layout 1 [7, 9, 4]).2 (by decide)⟩

/-- C10: a sampling tick leaves a counter with `present = false` entirely
unchanged; a counter with `present = true` has its current value shifted
into previous and the slot selected by its group index written as the new
current value. -/
theorem pmu_sample_frame (counters : List PmuCounter) (val : ℕ → ℕ) (i : ℕ) :
    ((counters.getD i default).present = false →
      (pmu_sample_counters counters val).getD i default = counters.getD i default) ∧
    ((counters.getD i default).present = true → i < counters.length →
      (pmu_sample_counters counters val).getD i default =
        { config := (counters.getD i default).config,
          idx := (counters.getD i default).idx,
          val := { cur := val (counters.getD i default).idx,
                   prev := (counters.getD i default).val.cur },
          present := true }) := by
  by_cases hi : i < counters.length
  · have hmap : (pmu_sample_counters counters val).getD i default =
        update_sample (counters.getD i default) val := by
      unfold pmu_sample_counters
      rw [List.getD_eq_getElem?_getD, List.getD_eq_getElem?_getD,
        List.getElem?_map, List.getElem?_eq_getElem hi]
      rfl
    rw [hmap]
    generalize (counters.getD i default) = c
    obtain ⟨cfg, cidx, v, p⟩ := c
    constructor
    · intro hnp
      simp only at hnp
      subst hnp
      rfl
    · intro hp _
      simp only at hp
      subst hp
      rfl
  · have hlen : ¬ i < (pmu_sample_counters counters val).length := by
      unfold pmu_sample_counters
      simpa using hi
    constructor
    · intro _
      rw [List.getD_eq_getElem?_getD, List.getD_eq_getElem?_getD,
        List.getElem?_eq_none (by omega), List.getElem?_eq_none (by omega)]
    · intro _ hcon
      exact absurd hcon hi

theorem pmu_sample_frame_witness :
    (pmu_sample_counters [⟨0, 0, ⟨10, 4⟩, false⟩] (fun _ => 99)).getD 0 default =
      [(⟨0, 0, ⟨10, 4⟩, false⟩ : PmuCounter)].getD 0 default :=
  (pmu_sample_frame [⟨0, 0, ⟨10, 4⟩, false⟩] (fun _ => 99) 0).1 (by decide)

/-! ## Class-view aggregation (update_class_engines) -/

/-- __pmu_sum: add a source pair into an accumulator, uint64 arithmetic. -/
def __pmu_sum (dst src : PmuPair) : PmuPair :=
  { cur := (dst.cur + src.cur) % U64, prev := (dst.prev + src.prev) % U64 }

/-- __pmu_normalize: divide both halves of a pair by the engine count
(uint64 integer division). -/
def __pmu_normalize (val : PmuPair) (n : ℕ) : PmuPair :=
  { cur := val.cur / n, prev := val.prev / n }

/-- An engine as the class aggregator sees it: its class id and its three
sampled counter pairs. -/
structure ClassEngine where
  cls : ℕ
  busy : PmuPair
  sema : PmuPair
  wait : PmuPair
deriving DecidableEq, Repr, Inhabited

/-- The engines of one class, in table order. -/
def class_members (engines : List ClassEngine) (c : ℕ) : List ClassEngine :=
  engines.filter (fun e => e.cls == c)

/-- num_engines recorded for a class by init_engine_classes. -/
def class_num_engines (engines : List ClassEngine) (c : ℕ) : ℕ :=
  (class_members engines c).length

/-- The zero-then-__pmu_sum loop of update_class_engines over one class for
one of the three counters. -/
def class_sum (engines : List ClassEngine) (c : ℕ) (f : ClassEngine → PmuPair) :
    PmuPair :=
  (class_members engines c).foldl (fun acc e => __pmu_sum acc (f e)) ⟨0, 0⟩

/-- One refreshed synthetic class counter: the summed pair normalised by the
class's engine count, exactly as update_class_engines computes it. -/
def update_class_counter (engines : List ClassEngine) (c : ℕ)
    (f : ClassEngine → PmuPair) : PmuPair :=
  __pmu_normalize (class_sum engines c f) (class_num_engines engines c)

/-- The quantity the claim says the synthetic counter's delta equals: the sum
of the real engines' per-tick deltas, divided by the engine count. -/
def class_delta_sum_div (engines : List ClassEngine) (c : ℕ)
    (f : ClassEngine → PmuPair) : ℕ :=
  ((class_members engines c).map (fun e => u64_delta (f e))).sum /
    class_num_engines engines c

/-- Two engines of class 0: busy pairs (prev 0, cur 2) and (prev 1, cur 2). -/
def cexClassEngines : List ClassEngine :=
  [⟨0, ⟨2, 0⟩, ⟨0, 0⟩, ⟨0, 0⟩⟩, ⟨0, ⟨2, 1⟩, ⟨0, 0⟩, ⟨0, 0⟩⟩]

/-- C2 counterexample: the synthetic class counter is built by summing the
previous values and the current values separately and dividing each sum by
n, so its delta is (0+2)/2 − (0+1)/2 = 2 − 0 = 2, while the claimed
(Σᵢ deltaᵢ)/n is (2+1)/2 = 1: the claimed equation fails. -/
theorem class_aggregation_delta_cex :
    u64_delta (update_class_counter cexClassEngines 0 ClassEngine.busy) = 2 ∧
    class_delta_sum_div cexClassEngines 0 ClassEngine.busy = 1 ∧
    (2 : ℕ) ≠ 1 := by
  refine ⟨?_, ?_, by decide⟩
  · rfl
  · rfl

lemma class_sum_foldl (f : ClassEngine → PmuPair) :
    ∀ (l : List ClassEngine) (a b : ℕ),
      l.foldl (fun acc e => __pmu_sum acc (f e)) ⟨a % U64, b % U64⟩ =
        ⟨(a + (l.map (fun e => (f e).cur)).sum) % U64,
         (b + (l.map (fun e => (f e).prev)).sum) % U64⟩ := by
  intro l
  induction l with
  | nil => intro a b; simp
  | cons e l ih =>
    intro a b
    have hstep : __pmu_sum ⟨a % U64, b % U64⟩ (f e) =
        ⟨(a + (f e).cur) % U64, (b + (f e).prev) % U64⟩ := by
      unfold __pmu_sum
      simp [Nat.mod_add_mod]
    simp only [List.foldl_cons, hstep, ih, List.map_cons, List.sum_cons]
    simp [Nat.add_assoc]

/-- C2 amended: for every class c with members e₁…eₙ, the refreshed
synthetic counter is ((Σᵢ eᵢ.cur) mod 2⁶⁴) / n in its current slot and
((Σᵢ eᵢ.prev) mod 2⁶⁴) / n in its previous slot — the sums are divided
separately, so the delta is (Σ cur)/n − (Σ prev)/n, not (Σᵢ deltaᵢ)/n. -/
theorem update_class_counter_eq (engines : List ClassEngine) (c : ℕ)
    (f : ClassEngine → PmuPair) :
    update_class_counter engines c f =
      ⟨(((class_members engines c).map (fun e => (f e).cur)).sum % U64) /
         class_num_engines engines c,
       (((class_members engines c).map (fun e => (f e).prev)).sum % U64) /
         class_num_engines engines c⟩ := by
  unfold update_class_counter class_sum __pmu_normalize
  have h0 : (⟨0, 0⟩ : PmuPair) = ⟨0 % U64, 0 % U64⟩ := by
    simp [U64]
  rw [h0, class_sum_foldl]
  simp

/-! ## PMU config bit layout and engine discovery derivation -/

/-- Modelled from the spec: the kernel config bit-layout constants
(I915_PMU_SAMPLE_BITS, I915_PMU_SAMPLE_INSTANCE_BITS, I915_PMU_CLASS_SHIFT
and __I915_PMU_OTHER) live in a kernel uapi header that is not among the
sources here.  Spec §6 fixes the layout: bits 0..7 sample selector, bits
8..15 instance (INSTANCE_BITS = 8), bits 16..23 engine class
(CLASS_SHIFT = 16), and names the threshold OTHER_BASE = 1<<16. -/
def OTHER_BASE : ℕ := 2 ^ 16

def CLASS_SHIFT : ℕ := 16

def SAMPLE_BITS : ℕ := 8

def INSTANCE_BITS : ℕ := 8

/-- Modelled from the spec: the engine class carried by a config value is
the 8-bit field at bits 16..23 of the layout of spec §6. -/
def config_class (config : ℕ) : ℕ := config / 2 ^ CLASS_SHIFT % 2 ^ 8

/-- The instance derivation of discover_engines: the INSTANCE_BITS bits
above the sample-bits offset, `(config >> SAMPLE_BITS) & 0xff`. -/
def config_instance (config : ℕ) : ℕ :=
  config / 2 ^ SAMPLE_BITS % 2 ^ INSTANCE_BITS

/-- The class derivation exactly as the claim words it: mask with
`OTHER_BASE − 1`, then shift right by 16.  Masking with a power-of-two
minus one is reduction modulo that power of two. -/
def claimed_config_class (config : ℕ) : ℕ := config % OTHER_BASE / 2 ^ 16

/-- C4 counterexample: for the config with class field 2 (a Video engine,
bits 16..23 = 2) and everything else zero, the claim's formula
(c & (OTHER_BASE − 1)) >> 16 with OTHER_BASE = 1<<16 masks the class field
away and yields 0, not 2 — with OTHER_BASE = 2^16 the mask and the shift
cancel, so the claimed derivation returns 0 on every config. -/
theorem config_class_formula_cex :
    config_class (2 * 2 ^ 16) = 2 ∧
    claimed_config_class (2 * 2 ^ 16) = 0 ∧ (2 : ℕ) ≠ 0 := by
  refine ⟨by decide, by decide, by decide⟩

/-- C4 amended: the derived class is the 8-bit field at bit 16, i.e.
(c & (2^24 − 1)) >> 16 — the mask consistent with the §6 layout is
2^24 − 1, covering sample, instance and class bits — and the derived
instance is (c >> 8) & 0xff, as claimed. -/
theorem config_fields (config : ℕ) :
    config_class config = config % 2 ^ 24 / 2 ^ 16 ∧
    config_instance config = config / 2 ^ 8 % 2 ^ 8 := by
  constructor
  · unfold config_class CLASS_SHIFT
    have h : (2 : ℕ) ^ 24 = 2 ^ 16 * 2 ^ 8 := by norm_num
    rw [h, Nat.mod_mul_right_div_self]
  · rfl

/-! ## Counter initialisation (pmu_init) and renderer member emission -/

/-- The sequence of `_open_pmu` invocations: each successful open marks the
counter present and hands it the next group index; a failed open leaves the
counter absent (idx stays 0) and does not advance the index.  The oracle
list gives each open's outcome in program order (irq first). -/
def pmu_open_seq : List Bool → ℕ → List (Bool × ℕ) × ℕ
  | [], cnt => ([], cnt)
  | ok :: rest, cnt =>
    if ok then
      ((true, cnt) :: (pmu_open_seq rest (cnt + 1)).1, (pmu_open_seq rest (cnt + 1)).2)
    else
      ((false, 0) :: (pmu_open_seq rest cnt).1, (pmu_open_seq rest cnt).2)

/-- pmu_init: the first open is the IRQ counter; if it fails the whole
initialisation returns an error (the remaining counters' outcomes no
longer matter), otherwise every further open failure is tolerated. -/
def pmu_init (oks : List Bool) : Option (List (Bool × ℕ) × ℕ) :=
  match oks with
  | [] => none
  | ok0 :: _ => if ok0 then some (pmu_open_seq oks 0) else none

/-- main: a failed pmu_init prints a message and exits EXIT_FAILURE (1). -/
def main_init_exit (oks : List Bool) : ℕ :=
  if (pmu_init oks).isSome then 0 else 1

/-- A cnt_item as the renderers see it: whether `item->pmu` is non-NULL and
whether that counter is present; `tag` stands for the item identity. -/
structure CntItem where
  tag : ℕ
  hasPmu : Bool
  present : Bool
deriving DecidableEq, Repr, Inhabited

/-- present_in_group: the number of items whose counter exists and is
present; a group with none is skipped entirely. -/
def present_in_group (items : List CntItem) : ℕ :=
  (items.filter (fun it => it.hasPmu && it.present)).length

/-- stdout_add_member returns without printing when the item's counter is
missing or absent; so the members a data row shows for a group. -/
def stdout_data_members (items : List CntItem) : List CntItem :=
  if present_in_group items = 0 then []
  else items.filter (fun it => it.hasPmu && it.present)

/-- prometheus_add_member likewise returns early for missing or absent
counters. -/
def prometheus_members (items : List CntItem) : List CntItem :=
  if present_in_group items = 0 then []
  else items.filter (fun it => it.hasPmu && it.present)

/-- json_add_member prints a member for every named item of a printed group
with no present check at all. -/
def json_members (items : List CntItem) : List CntItem :=
  if present_in_group items = 0 then [] else items

def cexPresentItem : CntItem := ⟨1, true, true⟩

def cexAbsentItem : CntItem := ⟨2, true, false⟩

/-- C7 counterexample: a counter whose open failed (present = false) is not
absent from every output: the JSON renderer still emits a member for it
whenever its group holds some other present counter. -/
theorem json_absent_member_cex :
    cexAbsentItem.present = false ∧
    cexAbsentItem ∈ json_members [cexPresentItem, cexAbsentItem] := by
  exact ⟨rfl, by decide⟩

lemma pmu_open_seq_fst :
    ∀ (oks : List Bool) (cnt : ℕ), (pmu_open_seq oks cnt).1.map Prod.fst = oks := by
  intro oks
  induction oks with
  | nil => intro cnt; rfl
  | cons ok rest ih =>
    intro cnt
    cases ok <;> simp [pmu_open_seq, ih]

lemma getD_fst (l : List (Bool × ℕ)) (i : ℕ) :
    (l.getD i default).1 = (l.map Prod.fst).getD i false := by
  rw [List.getD_eq_getElem?_getD, List.getD_eq_getElem?_getD, List.getElem?_map]
  cases l[i]? <;> rfl

/-- C7 amended: a failed open of the mandatory IRQ counter makes pmu_init
fail and the program exit non-zero; with the IRQ open succeeding,
initialisation proceeds and each counter's present flag records exactly its
own open outcome; an absent counter is skipped by the plain-text and
Prometheus renderers (the JSON renderer, by contrast, may still emit it,
see the counterexample). -/
theorem pmu_init_error_policy (ok0 : Bool) (rest : List Bool) :
    (ok0 = false → pmu_init (ok0 :: rest) = none ∧ main_init_exit (ok0 :: rest) = 1) ∧
    (ok0 = true →
      pmu_init (ok0 :: rest) = some (pmu_open_seq (ok0 :: rest) 0) ∧
      ∀ i, ((pmu_open_seq (ok0 :: rest) 0).1.getD i default).1 =
        (ok0 :: rest).getD i false) ∧
    (∀ (items : List CntItem) (it : CntItem),
      it ∈ stdout_data_members items → it.present = true) ∧
    (∀ (items : List CntItem) (it : CntItem),
      it ∈ prometheus_members items → it.present = true) := by
  refine ⟨?_, ?_, ?_, ?_⟩
  · intro h
    subst h
    exact ⟨rfl, rfl⟩
  · intro h
    subst h
    refine ⟨rfl, ?_⟩
    intro i
    rw [getD_fst, pmu_open_seq_fst]
  · intro items it hmem
    unfold stdout_data_members at hmem
    split_ifs at hmem with hp
    · exact absurd hmem (List.not_mem_nil it)
    · have := List.of_mem_filter hmem
      simp at this
      exact this.2
  · intro items it hmem
    unfold prometheus_members at hmem
    split_ifs at hmem with hp
    · exact absurd hmem (List.not_mem_nil it)
    · have := List.of_mem_filter hmem
      simp at this
      exact this.2

theorem pmu_init_error_policy_witness :
    (pmu_init [false, true] = none ∧ main_init_exit [false, true] = 1) ∧
    pmu_init [true, false] = some (pmu_open_seq [true, false] 0) :=
  ⟨(pmu_init_error_policy false [true]).1 rfl,
   ((pmu_init_error_policy true [false]).2.1 rfl).1⟩

/-! ## The main loop (control flow per output mode) -/

inductive OutputMode
  | interactive
  | stdoutMode
  | jsonMode
  | prometheus
deriving DecidableEq, Repr

inductive LoopEv
  | sleepEv
  | sampleEv
  | printEv
  | stdinEv
deriving DecidableEq, Repr

/-- The `while (!stop_top)` loop of main, as the trace of its observable
steps, with no signal delivered (single-threaded semantics): in Prometheus
mode the body first sleeps the sample period, then samples, then prints,
then breaks; other modes sample, print, then wait and iterate. -/
def main_loop : OutputMode → ℕ → List LoopEv
  | _, 0 => []
  | m, fuel + 1 =>
    (if m = OutputMode.prometheus then [LoopEv.sleepEv] else []) ++
      [LoopEv.sampleEv, LoopEv.printEv] ++
      (if m = OutputMode.prometheus then []
       else (if m = OutputMode.interactive then [LoopEv.stdinEv] else [LoopEv.sleepEv]) ++
         main_loop m fuel)

/-- main after a successful init: `ret = EXIT_SUCCESS`, one priming
pmu_sample, then the loop; the exit code stays 0. -/
def main_run (m : OutputMode) (fuel : ℕ) : List LoopEv × ℕ :=
  (LoopEv.sampleEv :: main_loop m fuel, 0)

/-- C6: in Prometheus mode the loop sleeps for the sample period, takes one
sample, prints one snapshot and breaks, whatever fuel remains; the program
exits with code 0 and the whole run prints exactly one sample. -/
theorem prometheus_single_shot (fuel : ℕ) (h : 1 ≤ fuel) :
    main_loop OutputMode.prometheus fuel =
      [LoopEv.sleepEv, LoopEv.sampleEv, LoopEv.printEv] ∧
    (main_run OutputMode.prometheus fuel).2 = 0 ∧
    (main_run OutputMode.prometheus fuel).1.count LoopEv.printEv = 1 := by
  obtain ⟨k, rfl⟩ : ∃ k, fuel = k + 1 := ⟨fuel - 1, by omega⟩
  exact ⟨rfl, rfl, rfl⟩

theorem prometheus_single_shot_witness :
    main_loop OutputMode.prometheus 1 =
      [LoopEv.sleepEv, LoopEv.sampleEv, LoopEv.printEv] ∧
    (main_run OutputMode.prometheus 1).2 = 0 ∧
    (main_run OutputMode.prometheus 1).1.count LoopEv.printEv = 1 :=
  prometheus_single_shot 1 (by decide)

/-! ## Plain-text column mode: header cadence -/

inductive Row
  | header1
  | header2
  | dataRow
deriving DecidableEq, Repr

def STDOUT_HEADER_REPEAT : ℕ := 20

/-- One pass of the `while (!consumed)` body: print_groups computes
`headers = stdout_lines % STDOUT_HEADER_REPEAT + 1`; pass 1 emits the
group-name row, pass 2 the unit row (neither consumes), any other value
emits a data row and consumes; each emitted row ends in exactly one
newline and bumps stdout_lines by one. -/
def print_pass (lines : ℕ) : Row × Bool :=
  let headers := lines % STDOUT_HEADER_REPEAT + 1
  if headers = 1 then (Row.header1, false)
  else if headers = 2 then (Row.header2, false)
  else (Row.dataRow, true)

/-- The `while (!consumed)` loop around one sample's print; it always
consumes within three passes. -/
def print_until_consumed : ℕ → ℕ → ℕ × List Row
  | 0, lines => (lines, [])
  | fuel + 1, lines =>
    if (print_pass lines).2 then (lines + 1, [(print_pass lines).1])
    else
      ((print_until_consumed fuel (lines + 1)).1,
       (print_pass lines).1 :: (print_until_consumed fuel (lines + 1)).2)

/-- The rows emitted for `k` successive samples, starting from a given
stdout_lines counter (the program starts it at STDOUT_HEADER_REPEAT). -/
def print_samples : ℕ → ℕ → ℕ × List Row
  | 0, lines => (lines, [])
  | k + 1, lines =>
    ((print_samples k (print_until_consumed 3 lines).1).1,
     (print_until_consumed 3 lines).2 ++
       (print_samples k (print_until_consumed 3 lines).1).2)

/-- C8 counterexample: from the initial counter 20, thirty-six samples
produce two full periods of the row stream, and each period is the two
header rows followed by 18 data rows — not 20 — so exactly 18 data rows
separate two consecutive header-row pairs. -/
theorem stdout_header_cadence_cex :
    (print_samples 36 20).2 =
      ([Row.header1, Row.header2] ++ List.replicate 18 Row.dataRow) ++
      ([Row.header1, Row.header2] ++ List.replicate 18 Row.dataRow) ∧
    (18 : ℕ) ≠ 20 := by
  exact ⟨by decide, by decide⟩

lemma print_pass_eval (lines : ℕ) :
    print_pass lines =
      if lines % 20 = 0 then (Row.header1, false)
      else if lines % 20 = 1 then (Row.header2, false)
      else (Row.dataRow, true) := by
  simp only [print_pass, STDOUT_HEADER_REPEAT]
  by_cases h0 : lines % 20 = 0
  · simp [h0]
  · by_cases h1 : lines % 20 = 1
    · simp [h1]
    · rw [if_neg (by omega), if_neg (by omega), if_neg h0, if_neg h1]

lemma print_until_consumed_three (lines : ℕ) :
    print_until_consumed 3 lines =
      if (print_pass lines).2 then (lines + 1, [(print_pass lines).1])
      else
        ((print_until_consumed 2 (lines + 1)).1,
         (print_pass lines).1 :: (print_until_consumed 2 (lines + 1)).2) := rfl

lemma print_until_consumed_two (lines : ℕ) :
    print_until_consumed 2 lines =
      if (print_pass lines).2 then (lines + 1, [(print_pass lines).1])
      else
        ((print_until_consumed 1 (lines + 1)).1,
         (print_pass lines).1 :: (print_until_consumed 1 (lines + 1)).2) := rfl

lemma print_until_consumed_one (lines : ℕ) :
    print_until_consumed 1 lines =
      if (print_pass lines).2 then (lines + 1, [(print_pass lines).1])
      else (lines + 1, [(print_pass lines).1]) := rfl

lemma render_sample_eval (lines : ℕ) :
    print_until_consumed 3 lines =
      if lines % 20 = 0 then (lines + 3, [Row.header1, Row.header2, Row.dataRow])
      else if lines % 20 = 1 then (lines + 2, [Row.header2, Row.dataRow])
      else (lines + 1, [Row.dataRow]) := by
  by_cases h0 : lines % 20 = 0
  · have p0 : print_pass lines = (Row.header1, false) := by
      rw [print_pass_eval, if_pos h0]
    have p1 : print_pass (lines + 1) = (Row.header2, false) := by
      rw [print_pass_eval, if_neg (by omega), if_pos (by omega)]
    have p2 : print_pass (lines + 2) = (Row.dataRow, true) := by
      rw [print_pass_eval, if_neg (by omega), if_neg (by omega)]
    rw [if_pos h0, print_until_consumed_three, print_until_consumed_two,
      print_until_consumed_one, p0, p1, p2]
    simp
  · by_cases h1 : lines % 20 = 1
    · have p0 : print_pass lines = (Row.header2, false) := by
        rw [print_pass_eval, if_neg h0, if_pos h1]
      have p1 : print_pass (lines + 1) = (Row.dataRow, true) := by
        rw [print_pass_eval, if_neg (by omega), if_neg (by omega)]
      rw [if_neg h0, if_pos h1, print_until_consumed_three,
        print_until_consumed_two, p0, p1]
      simp
    · have p0 : print_pass lines = (Row.dataRow, true) := by
        rw [print_pass_eval, if_neg h0, if_neg h1]
      rw [if_neg h0, if_neg h1, print_until_consumed_three, p0]
      simp

lemma print_samples_step (k lines : ℕ) :
    print_samples (k + 1) lines =
      ((print_samples k (print_until_consumed 3 lines).1).1,
       (print_until_consumed 3 lines).2 ++
         (print_samples k (print_until_consumed 3 lines).1).2) := rfl

lemma print_samples_data_run :
    ∀ (k lines : ℕ), 2 ≤ lines % 20 → lines % 20 + k ≤ 20 →
      print_samples k lines = (lines + k, List.replicate k Row.dataRow) := by
  intro k
  induction k with
  | zero => intro lines h2 hle; simp [print_samples]
  | succ k ih =>
    intro lines h2 hle
    rw [print_samples_step]
    have hr : print_until_consumed 3 lines = (lines + 1, [Row.dataRow]) := by
      rw [render_sample_eval, if_neg (by omega), if_neg (by omega)]
    rw [hr]
    by_cases hk : k = 0
    · subst hk
      simp [print_samples]
    · have h2' : 2 ≤ (lines + 1) % 20 := by omega
      have hle' : (lines + 1) % 20 + k ≤ 20 := by omega
      rw [ih (lines + 1) h2' hle']
      have hn : lines + 1 + k = lines + (k + 1) := by omega
      rw [hn]
      simp [List.replicate_succ]

/-- C8 amended: in plain-text column mode the row stream is periodic with
period 20 emitted lines: whenever the line counter is a multiple of 20 the
next 18 samples emit the group-name header row, the unit header row and
then 18 data rows (so exactly 18 data rows lie between consecutive
header-row pairs, the pair being repeated every 20 printed lines), and
every sample's print loop emits exactly one data row, each row followed by
exactly one newline. -/
theorem stdout_header_cadence (lines : ℕ) (h : lines % 20 = 0) :
    print_samples 18 lines =
      (lines + 20, [Row.header1, Row.header2] ++ List.replicate 18 Row.dataRow) ∧
    (∀ l2 : ℕ, ((print_until_consumed 3 l2).2).count Row.dataRow = 1) := by
  constructor
  · conv_lhs => rw [show (18 : ℕ) = 17 + 1 from rfl]
    rw [print_samples_step]
    have hr : print_until_consumed 3 lines =
        (lines + 3, [Row.header1, Row.header2, Row.dataRow]) := by
      rw [render_sample_eval, if_pos h]
    rw [hr]
    rw [print_samples_data_run 17 (lines + 3) (by omega) (by omega)]
    have hn : lines + 3 + 17 = lines + 20 := by omega
    rw [hn]
    simp [List.replicate_succ]
  · intro l2
    rw [render_sample_eval]
    split_ifs <;> rfl

theorem stdout_header_cadence_witness :
    print_samples 18 20 =
      (20 + 20, [Row.header1, Row.header2] ++ List.replicate 18 Row.dataRow) :=
  (stdout_header_cadence 20 (by decide)).1

/-! ## Prometheus metric names -/

/-- A C byte string as the list of its byte values. -/
def str (s : String) : List ℕ := s.data.map Char.toNat

/-- tolower under the C locale, on byte values. -/
def c_tolower (c : ℕ) : ℕ := if 65 ≤ c ∧ c ≤ 90 then c + 32 else c

/-- Is the byte in [a-z0-9]? -/
def key_char (c : ℕ) : Bool := (97 ≤ c && c ≤ 122) || (48 ≤ c && c ≤ 57)

/-- The per-byte step of the parent-key loop: lowercase, then replace
anything outside [a-z0-9] by an underscore (95). -/
def sanitize_char (c : ℕ) : ℕ :=
  if key_char (c_tolower c) then c_tolower c else 95

/-- parent_name_key: snprintf into a 20-byte buffer truncates the group
name to 19 bytes; the first loop lowercases and sanitises every byte. -/
def parent_name_key (name : List ℕ) : List ℕ := (name.take 19).map sanitize_char

/-- item_name_key: snprintf truncates the item name to 19 bytes; the second
loop iterates while the PARENT key has bytes and only lowercases, so item
bytes beyond the parent key's length stay untouched and non-alphanumerics
are never replaced. -/
def item_name_key (name : List ℕ) (parentLen : ℕ) : List ℕ :=
  (name.take 19).mapIdx (fun i c => if i < parentLen then c_tolower c else c)

/-- The metric name prometheus_add_member prints:
`intel_gpu_top_%s_%s` with the two computed keys. -/
def metric_name (group item : List ℕ) : List ℕ :=
  str "intel_gpu_top_" ++ parent_name_key group ++ [95] ++
    item_name_key item (parent_name_key group).length

/-- The key the claim prescribes: the source string fully lower-cased with
every byte outside [a-z0-9] replaced by an underscore, no truncation. -/
def claimed_key (name : List ℕ) : List ℕ := name.map sanitize_char

def claimed_metric_name (group item : List ℕ) : List ℕ :=
  str "intel_gpu_top_" ++ claimed_key group ++ [95] ++ claimed_key item

/-- Matching the regular expression intel_gpu_top_[a-z0-9_]+_[a-z0-9_]+. -/
def matches_metric_re (s : List ℕ) : Prop :=
  ∃ k1 k2, k1 ≠ [] ∧ k2 ≠ [] ∧
    (∀ c ∈ k1, key_char c = true ∨ c = 95) ∧
    (∀ c ∈ k2, key_char c = true ∨ c = 95) ∧
    s = str "intel_gpu_top_" ++ k1 ++ [95] ++ k2

/-- class_display_name.  The I915_ENGINE_CLASS_* enum values live in a
kernel uapi header outside these sources; modelled from the spec's class
list in glossary order: Render 0, Blitter (copy) 1, Video 2,
VideoEnhance 3. -/
def class_display_name (cls : ℕ) : List ℕ :=
  if cls = 0 then str "Render/3D"
  else if cls = 1 then str "Blitter"
  else if cls = 2 then str "Video"
  else if cls = 3 then str "VideoEnhance"
  else str "[unknown]"

def dec_repr_aux : ℕ → ℕ → List ℕ
  | 0, _ => []
  | fuel + 1, n =>
    if n < 10 then [48 + n] else dec_repr_aux fuel (n / 10) ++ [48 + n % 10]

/-- The decimal rendering of an unsigned value, as printf %u writes it. -/
def dec_repr (n : ℕ) : List ℕ := dec_repr_aux (n + 1) n

/-- The display name discover_engines builds: "<class name>/<instance>". -/
def engine_display_name (cls inst : ℕ) : List ℕ :=
  class_display_name cls ++ [47] ++ dec_repr inst

/-- The (group name, item name) pairs the Prometheus renderer can emit:
the fixed summary groups (the period group is dropped outside JSON mode
and `unit` items carry no counter and are skipped), plus busy/sema/wait
for each discovered engine; a discovered instance is an 8-bit field. -/
inductive EmittedMetric : List ℕ → List ℕ → Prop
  | freq_req : EmittedMetric (str "frequency") (str "requested")
  | freq_act : EmittedMetric (str "frequency") (str "actual")
  | irq_count : EmittedMetric (str "interrupts") (str "count")
  | rc6_value : EmittedMetric (str "rc6") (str "value")
  | power_gpu : EmittedMetric (str "power") (str "GPU")
  | power_pkg : EmittedMetric (str "power") (str "Package")
  | imc_reads : EmittedMetric (str "imc-bandwidth") (str "reads")
  | imc_writes : EmittedMetric (str "imc-bandwidth") (str "writes")
  | engine_busy (cls inst : ℕ) (h : inst < 256) :
      EmittedMetric (engine_display_name cls inst) (str "busy")
  | engine_sema (cls inst : ℕ) (h : inst < 256) :
      EmittedMetric (engine_display_name cls inst) (str "sema")
  | engine_wait (cls inst : ℕ) (h : inst < 256) :
      EmittedMetric (engine_display_name cls inst) (str "wait")

lemma dec_repr_len : ∀ n < 256, 1 ≤ (dec_repr n).length ∧ (dec_repr n).length ≤ 3 := by
  decide

lemma class_display_name_len (cls : ℕ) :
    5 ≤ (class_display_name cls).length ∧ (class_display_name cls).length ≤ 12 := by
  unfold class_display_name
  split_ifs <;> decide

lemma engine_display_name_len (cls inst : ℕ) (h : inst < 256) :
    7 ≤ (engine_display_name cls inst).length ∧
      (engine_display_name cls inst).length ≤ 16 := by
  have h1 := class_display_name_len cls
  have h2 := dec_repr_len inst h
  unfold engine_display_name
  simp only [List.length_append, List.length_cons, List.length_nil]
  omega

lemma parent_key_of_short (g : List ℕ) (h : g.length ≤ 19) :
    parent_name_key g = claimed_key g := by
  unfold parent_name_key claimed_key
  rw [List.take_of_length_le h]

lemma item_key_of_lower (it : List ℕ) (n : ℕ) (h19 : it.length ≤ 19)
    (hlow : ∀ c ∈ it, c_tolower c = c) :
    item_name_key it n = it := by
  unfold item_name_key
  rw [List.take_of_length_le h19]
  apply List.ext_getElem
  · simp
  · intro i hi1 hi2
    rw [List.getElem_mapIdx]
    split_ifs with hcond
    · exact hlow _ (List.getElem_mem hi2)
    · rfl

lemma sanitize_char_key (c : ℕ) :
    key_char (sanitize_char c) = true ∨ sanitize_char c = 95 := by
  unfold sanitize_char
  split_ifs with h
  · exact Or.inl h
  · exact Or.inr rfl

lemma claimed_key_chars (g : List ℕ) :
    ∀ c ∈ claimed_key g, key_char c = true ∨ c = 95 := by
  intro c hc
  unfold claimed_key at hc
  obtain ⟨a, _, rfl⟩ := List.mem_map.mp hc
  exact sanitize_char_key a

lemma claimed_key_ne_nil (g : List ℕ) (h : g ≠ []) : claimed_key g ≠ [] := by
  unfold claimed_key
  simpa using h

lemma fixed_metric_ok (g i : List ℕ)
    (heq : metric_name g i = claimed_metric_name g i)
    (h1 : claimed_key g ≠ []) (h2 : claimed_key i ≠ [])
    (h3 : ∀ c ∈ claimed_key g, key_char c = true ∨ c = 95)
    (h4 : ∀ c ∈ claimed_key i, key_char c = true ∨ c = 95) :
    metric_name g i = claimed_metric_name g i ∧
      matches_metric_re (metric_name g i) := by
  refine ⟨heq, ?_⟩
  rw [heq]
  exact ⟨claimed_key g, claimed_key i, h1, h2, h3, h4, rfl⟩

lemma engine_metric_ok (cls inst : ℕ) (hinst : inst < 256) (it : List ℕ)
    (h19 : it.length ≤ 19) (hlow : ∀ c ∈ it, c_tolower c = c)
    (hcl : claimed_key it = it) (hne : it ≠ []) :
    metric_name (engine_display_name cls inst) it =
      claimed_metric_name (engine_display_name cls inst) it ∧
    matches_metric_re (metric_name (engine_display_name cls inst) it) := by
  have hlen := engine_display_name_len cls inst hinst
  have hg19 : (engine_display_name cls inst).length ≤ 19 := by omega
  have hpk := parent_key_of_short (engine_display_name cls inst) hg19
  have hik := item_key_of_lower it
    (parent_name_key (engine_display_name cls inst)).length h19 hlow
  have heq : metric_name (engine_display_name cls inst) it =
      claimed_metric_name (engine_display_name cls inst) it := by
    unfold metric_name claimed_metric_name
    rw [hik, hpk, hcl]
  refine ⟨heq, ?_⟩
  rw [heq]
  refine ⟨claimed_key (engine_display_name cls inst), claimed_key it,
    ?_, ?_, claimed_key_chars _, claimed_key_chars _, rfl⟩
  · exact claimed_key_ne_nil _ (List.ne_nil_of_length_pos (by omega))
  · rw [hcl]
    exact hne

/-- C3: every metric the Prometheus renderer emits is named
intel_gpu_top_<group_key>_<item_key> with both keys equal to the source
strings lower-cased and sanitised to [a-z0-9_] exactly as the claim states
(for the names this program emits, the partial lowercasing and missing
sanitisation of the item key coincide with the claimed full
transformation), and each name matches
intel_gpu_top_[a-z0-9_]+_[a-z0-9_]+. -/
theorem prometheus_name_sanitised (g i : List ℕ) (h : EmittedMetric g i) :
    metric_name g i = claimed_metric_name g i ∧
      matches_metric_re (metric_name g i) := by
  cases h with
  | freq_req =>
    exact fixed_metric_ok _ _ (by decide) (by decide) (by decide) (by decide) (by decide)
  | freq_act =>
    exact fixed_metric_ok _ _ (by decide) (by decide) (by decide) (by decide) (by decide)
  | irq_count =>
    exact fixed_metric_ok _ _ (by decide) (by decide) (by decide) (by decide) (by decide)
  | rc6_value =>
    exact fixed_metric_ok _ _ (by decide) (by decide) (by decide) (by decide) (by decide)
  | power_gpu =>
    exact fixed_metric_ok _ _ (by decide) (by decide) (by decide) (by decide) (by decide)
  | power_pkg =>
    exact fixed_metric_ok _ _ (by decide) (by decide) (by decide) (by decide) (by decide)
  | imc_reads =>
    exact fixed_metric_ok _ _ (by decide) (by decide) (by decide) (by decide) (by decide)
  | imc_writes =>
    exact fixed_metric_ok _ _ (by decide) (by decide) (by decide) (by decide) (by decide)
  | engine_busy cls inst hinst =>
    exact engine_metric_ok cls inst hinst _ (by decide) (by decide) (by decide)
      (by decide)
  | engine_sema cls inst hinst =>
    exact engine_metric_ok cls inst hinst _ (by decide) (by decide) (by decide)
      (by decide)
  | engine_wait cls inst hinst =>
    exact engine_metric_ok cls inst hinst _ (by decide) (by decide) (by decide)
      (by decide)

theorem prometheus_name_sanitised_witness :
    metric_name (str "rc6") (str "value") =
      claimed_metric_name (str "rc6") (str "value") ∧
    matches_metric_re (metric_name (str "rc6") (str "value")) :=
  prometheus_name_sanitised _ _ EmittedMetric.rc6_value

/-! ## Engine discovery -/

/-- A directory entry of the per-device sysfs events directory. -/
structure DirEnt where
  name : List ℕ
  isReg : Bool
deriving DecidableEq, Repr, Inhabited

/-- A discovered engine: the stem of its "-busy" event file name, the busy
config value and the class and instance fields derived from it. -/
structure Engine where
  name : List ℕ
  config : ℕ
  cls : ℕ
  inst : ℕ
deriving DecidableEq, Repr, Inhabited

/-- The discovery loop's treatment of one directory entry: `some none`
skips it (not a regular file, name shorter than "xxxN-busy", or no "-busy"
suffix); `none` makes the whole discovery fail (name of 256 bytes or more,
or the busy config unreadable — get_pmu_config's uint64 −1 sentinel
included); `some (some e)` appends an engine. -/
def parse_event_file (cfg : List ℕ → Option ℕ) (e : DirEnt) :
    Option (Option Engine) :=
  if e.isReg = false then some none
  else if 256 ≤ e.name.length then none
  else if e.name.length < 9 then some none
  else if e.name.drop (e.name.length - 5) ≠ str "-busy" then some none
  else
    match cfg (e.name.take (e.name.length - 5)) with
    | none => none
    | some c =>
      if c = U64 - 1 then none
      else some (some { name := e.name.take (e.name.length - 5), config := c,
                        cls := config_class c, inst := config_instance c })

/-- The readdir loop of discover_engines, in enumeration order. -/
def discover_list : List DirEnt → (List ℕ → Option ℕ) → Option (List Engine)
  | [], _ => some []
  | e :: rest, cfg =>
    match parse_event_file cfg e with
    | none => none
    | some none => discover_list rest cfg
    | some (some eng) => (discover_list rest cfg).map (fun l => eng :: l)

/-- engine_cmp as a ≤-test: order by class, then by instance. -/
def engine_le (a b : Engine) : Bool :=
  a.cls < b.cls || (a.cls == b.cls && a.inst ≤ b.inst)

/-- The table order engine_cmp induces, as a relation. -/
def engine_ord (a b : Engine) : Prop := engine_le a b = true

instance : DecidableRel engine_ord := fun a b => by
  unfold engine_ord
  infer_instance

/-- discover_engines: collect the engines from the directory listing, then
qsort the table with engine_cmp. -/
def discover_engines (entries : List DirEnt) (cfg : List ℕ → Option ℕ) :
    Option (List Engine) :=
  (discover_list entries cfg).map (fun l => List.insertionSort engine_ord l)

def cexEntryA : DirEnt := ⟨str "aaaa-busy", true⟩

def cexEntryB : DirEnt := ⟨str "bbbb-busy", true⟩

def cexCfg : List ℕ → Option ℕ := fun s =>
  if s = str "aaaa" then some 0 else if s = str "bbbb" then some 0 else none

/-- C9 counterexample: the same set of event files enumerated in two orders.
Both engines derive class 0 and instance 0, the comparator ties, and the
sort keeps the enumeration order, so the two runs return tables differing
in their engine names: identical sysfs content as a SET does not give a
byte-identical table. -/
theorem discover_set_idempotence_cex :
    ([cexEntryA, cexEntryB] : List DirEnt).Perm [cexEntryB, cexEntryA] ∧
    discover_engines [cexEntryA, cexEntryB] cexCfg ≠
      discover_engines [cexEntryB, cexEntryA] cexCfg := by
  constructor
  · exact List.Perm.swap _ _ _
  · decide

lemma discover_list_eq (entries : List DirEnt) (cfg : List ℕ → Option ℕ) :
    discover_list entries cfg =
      if entries.all (fun e => (parse_event_file cfg e).isSome) then
        some (entries.filterMap (fun e => (parse_event_file cfg e).getD none))
      else none := by
  induction entries with
  | nil => rfl
  | cons e rest ih =>
    unfold discover_list
    cases hp : parse_event_file cfg e with
    | none => simp [hp]
    | some oe =>
      cases oe with
      | none =>
        rw [ih]
        by_cases hall : rest.all (fun e => (parse_event_file cfg e).isSome)
        · simp [hp, hall, List.all_cons, List.filterMap_cons]
        · simp [hp, hall, List.all_cons]
      | some eng =>
        rw [ih]
        by_cases hall : rest.all (fun e => (parse_event_file cfg e).isSome)
        · simp [hp, hall, List.all_cons, List.filterMap_cons]
        · simp [hp, hall, List.all_cons]

lemma discover_list_perm (e1 e2 : List DirEnt) (cfg : List ℕ → Option ℕ)
    (hperm : e1.Perm e2) (l1 l2 : List Engine)
    (h1 : discover_list e1 cfg = some l1)
    (h2 : discover_list e2 cfg = some l2) : l1.Perm l2 := by
  rw [discover_list_eq] at h1 h2
  by_cases ha : e1.all (fun e => (parse_event_file cfg e).isSome)
  · have ha2 : e2.all (fun e => (parse_event_file cfg e).isSome) := by
      rw [List.all_eq_true] at ha ⊢
      intro x hx
      exact ha x (hperm.mem_iff.mpr hx)
    rw [if_pos ha] at h1
    rw [if_pos ha2] at h2
    obtain rfl := Option.some.inj h1
    obtain rfl := Option.some.inj h2
    exact hperm.filterMap _
  · rw [if_neg ha] at h1
    cases h1

lemma engine_le_trans (a b c : Engine) (h1 : engine_le a b = true)
    (h2 : engine_le b c = true) : engine_le a c = true := by
  simp only [engine_le, Bool.or_eq_true, Bool.and_eq_true, decide_eq_true_eq,
    beq_iff_eq] at h1 h2 ⊢
  omega

lemma engine_le_total (a b : Engine) : (engine_le a b || engine_le b a) = true := by
  simp only [engine_le, Bool.or_eq_true, Bool.and_eq_true, decide_eq_true_eq,
    beq_iff_eq]
  omega

instance : IsTrans Engine engine_ord := ⟨engine_le_trans⟩

instance : IsTotal Engine engine_ord := ⟨by
  intro a b
  have h := engine_le_total a b
  rw [Bool.or_eq_true] at h
  exact h⟩

/-- The strict table order: strictly increasing (class, instance) keys. -/
def engine_lt (a b : Engine) : Prop :=
  a.cls < b.cls ∨ (a.cls = b.cls ∧ a.inst < b.inst)

/-- C9 amended: a discovered engine table is sorted by (class, instance),
and discovery over the same set of event files is order-independent —
hence byte-identical across runs — provided the derived (class, instance)
keys are pairwise distinct (with duplicate keys only the enumeration order
of the tied engines can differ, see the counterexample). -/
theorem discover_engines_deterministic (entries1 entries2 : List DirEnt)
    (cfg : List ℕ → Option ℕ) (l1 l2 : List Engine)
    (hperm : entries1.Perm entries2)
    (h1 : discover_engines entries1 cfg = some l1)
    (h2 : discover_engines entries2 cfg = some l2) :
    List.Sorted engine_ord l1 ∧
    (List.Pairwise (fun a b => (a.cls, a.inst) ≠ (b.cls, b.inst)) l1 →
      l1 = l2) := by
  unfold discover_engines at h1 h2
  cases hd1 : discover_list entries1 cfg with
  | none => rw [hd1] at h1; cases h1
  | some m1 =>
    cases hd2 : discover_list entries2 cfg with
    | none => rw [hd2] at h2; cases h2
    | some m2 =>
      rw [hd1] at h1
      rw [hd2] at h2
      obtain rfl : List.insertionSort engine_ord m1 = l1 := by simpa using h1
      obtain rfl : List.insertionSort engine_ord m2 = l2 := by simpa using h2
      have hsort1 := List.sorted_insertionSort engine_ord m1
      have hsort2 := List.sorted_insertionSort engine_ord m2
      refine ⟨hsort1, ?_⟩
      intro hkeys
      have hpm : m1.Perm m2 := discover_list_perm _ _ cfg hperm m1 m2 hd1 hd2
      have hperm12 :
          (List.insertionSort engine_ord m1).Perm (List.insertionSort engine_ord m2) :=
        ((List.perm_insertionSort engine_ord m1).trans hpm).trans
          (List.perm_insertionSort engine_ord m2).symm
      have hsymm : ∀ {x y : Engine},
          (x.cls, x.inst) ≠ (y.cls, y.inst) → (y.cls, y.inst) ≠ (x.cls, x.inst) :=
        fun h he => h he.symm
      have hkeys2 := (List.Perm.pairwise_iff hsymm hperm12).mp hkeys
      have himp : ∀ {a b : Engine},
          engine_ord a b ∧ (a.cls, a.inst) ≠ (b.cls, b.inst) →
            engine_lt a b := by
        intro a b hab
        obtain ⟨hle, hne⟩ := hab
        simp only [engine_ord, engine_le, Bool.or_eq_true, Bool.and_eq_true,
          decide_eq_true_eq, beq_iff_eq] at hle
        have hne2 : ¬(a.cls = b.cls ∧ a.inst = b.inst) := by
          intro hcontra
          exact hne (by rw [hcontra.1, hcontra.2])
        unfold engine_lt
        omega
      have hlt1 : List.Pairwise engine_lt (List.insertionSort engine_ord m1) :=
        (List.Pairwise.and hsort1 hkeys).imp himp
      have hlt2 : List.Pairwise engine_lt (List.insertionSort engine_ord m2) :=
        (List.Pairwise.and hsort2 hkeys2).imp himp
      haveI : IsAntisymm Engine engine_lt := ⟨by
        intro a b ha hb
        exfalso
        unfold engine_lt at ha hb
        omega⟩
      exact List.eq_of_perm_of_sorted hperm12 hlt1 hlt2

theorem discover_engines_deterministic_witness :
    List.Sorted engine_ord [(⟨str "aaaa", 0, 0, 0⟩ : Engine)] ∧
    (List.Pairwise (fun a b : Engine => (a.cls, a.inst) ≠ (b.cls, b.inst))
        [(⟨str "aaaa", 0, 0, 0⟩ : Engine)] →
      [(⟨str "aaaa", 0, 0, 0⟩ : Engine)] = [(⟨str "aaaa", 0, 0, 0⟩ : Engine)]) :=
  discover_engines_deterministic [cexEntryA] [cexEntryA] cexCfg
    [⟨str "aaaa", 0, 0, 0⟩] [⟨str "aaaa", 0, 0, 0⟩]
    (List.Perm.refl _) (by decide) (by decide)

end IntelGpuTop
